import Mathlib

/-!
Verification of the Resume_filtering repository (Flask backend `app.py`,
pipeline `resume_filter.py`).

The external LLM calls (langchain chains) are modelled as oracle functions
passed in as parameters; the handlers' filesystem side effects are modelled
as explicit state passing over a `Finset String` of existing file paths.
Scores use `Int` (Python ints) and `ℚ` for float arithmetic (the Python
float formula `t*0.4 + s*0.3 + e*0.2 + ((c/3)*10)*0.1` is modelled exactly
over the rationals).
-/

namespace ResumeFiltering

/-! ## Data model (`resume_filter.py`, Pydantic models) -/

/-- Model of `ResumeKeywords`: keywords extracted from the job-description prompt. -/
structure ResumeKeywords where
  keywords : List String
  deriving DecidableEq

/-- Model of `KeywordCategories`: four buckets of keywords. -/
structure KeywordCategories where
  technical : List String
  soft_skills : List String
  extracurricular : List String
  recruiter_requirements : List String
  deriving DecidableEq

/-- Model of `ResumeScore`: candidate name, four (score, reason) pairs, and the
locally computed `aggregate_score` (a Python float, modelled as `ℚ`;
the Pydantic default is `0.0`). -/
structure ResumeScore where
  name : String
  technical_score : Int
  technical_reason : String
  softskills_score : Int
  softskills_reason : String
  extracurricular_score : Int
  extracurricular_reason : String
  client_need_score : Int
  client_need_reason : String
  aggregate_score : ℚ := 0
  deriving DecidableEq

/-- Model of `RecommendedCandidate`: name plus a justification. -/
structure RecommendedCandidate where
  name : String
  reason : String
  deriving DecidableEq

/-- Model of `RecommendationList`: ordered sequence of recommended candidates. -/
structure RecommendationList where
  recommendations : List RecommendedCandidate
  deriving DecidableEq

/-! ## Candidates passed to `get_recommendations`

`get_recommendations` receives raw dicts (parsed request JSON).  The only
key the local code touches is `aggregate_score`, read with
`x.get('aggregate_score', 0)`, so a candidate is modelled as a name
together with an optional aggregate score (`none` models a dict lacking
the key). -/
structure Candidate where
  name : String
  aggregate_score : Option ℚ
  deriving DecidableEq

/-- The sort key `x.get('aggregate_score', 0)` from
`resume_filter.py:216`: the stored value if the key is present, `0`
otherwise (`dict.get` never raises). -/
def aggKey (c : Candidate) : ℚ :=
  c.aggregate_score.getD 0

/-! ## The sort in `get_recommendations`

`sorted(candidate_scores, key=lambda x: x.get('aggregate_score', 0),
reverse=True)` — Python's `sorted` is a stable sort, and with
`reverse=True` elements with equal keys still keep their original
relative order.  It is embedded as the stable descending insertion sort
below: an element is inserted *before* the first already-placed element
whose key is `≤` its own, i.e. after every strictly greater key; since
`sortByAggDesc` inserts earlier input elements into the sorted rest,
an earlier element ends up before every equal-key later element. -/

def insertDesc (c : Candidate) : List Candidate → List Candidate
  | [] => [c]
  | x :: xs => if aggKey x ≤ aggKey c then c :: x :: xs else x :: insertDesc c xs

def sortByAggDesc : List Candidate → List Candidate
  | [] => []
  | c :: cs => insertDesc c (sortByAggDesc cs)

/-! ## Function `get_recommendations` (`resume_filter.py:208-226`)

The LLM chain `chain_recommendations.invoke` is an external oracle; the
serialization `json.dumps(sorted_candidates)` is injective on our
candidate model, so the oracle is modelled as a function of the sorted
list and the requested count.  The second component of the result counts
how many times the external chain was invoked. -/
def get_recommendations
    (chain : List Candidate → Int → RecommendationList)
    (candidate_scores : List Candidate) (num_recommendations : Int) :
    RecommendationList × Nat :=
  if candidate_scores = [] then
    (⟨[]⟩, 0)
  else
    let sorted_candidates := sortByAggDesc candidate_scores
    (chain sorted_candidates num_recommendations, 1)

/-! ## Function `extract_text_from_pdf` (`resume_filter.py:147-157`)

`pdfplumber` is an external collaborator (spec §1): a PDF document either
fails to decode (`pdfplumber.open` / page iteration raises — `Except.error`)
or yields a list of pages, where each page's `extract_text()` returns its
text or `None` (`Option String`).  The source accumulates
`text += page.extract_text() or ""` over the pages and returns `""` when
any internal exception is raised. -/

instance {ε α : Type} [DecidableEq ε] [DecidableEq α] :
    DecidableEq (Except ε α) := fun a b =>
  match a, b with
  | .error e₁, .error e₂ =>
    if h : e₁ = e₂ then .isTrue (by rw [h]) else .isFalse (by simp [h])
  | .error _, .ok _ => .isFalse (by simp)
  | .ok _, .error _ => .isFalse (by simp)
  | .ok v₁, .ok v₂ =>
    if h : v₁ = v₂ then .isTrue (by rw [h]) else .isFalse (by simp [h])

/-- A decoded-or-failing PDF document. -/
abbrev PdfDoc : Type := Except String (List (Option String))

def extract_text_from_pdf (pdf : PdfDoc) : String :=
  match pdf with
  | .error _ => ""
  | .ok pages => pages.foldl (fun text page => text ++ page.getD "") ""

/-! ## LLM oracles and the scoring pipeline (`resume_filter.py:159-206`)

Each `chain_*.invoke` call goes to the external LLM adapter; an invocation
either returns a schema-conforming value or raises (Pydantic
`ValidationError` from structured output, or any other exception), so each
oracle returns an `Except PyErr`. -/

/-- Python exceptions relevant to the handlers' `except` clauses. -/
inductive PyErr where
  | validation (details : String)
  | valueError (msg : String)
  | other (msg : String)
  deriving DecidableEq

/-- Message extraction `str(e)` for the generic handler branch. -/
def PyErr.message : PyErr → String
  | .validation d => d
  | .valueError m => m
  | .other m => m

/-- Input dict passed to `chain_scoring.invoke` (`resume_filter.py:182-189`). -/
structure ScoringInput where
  resume_text : String
  technical : List String
  soft_skills : List String
  extracurricular : List String
  client_need : List String
  strictness : String
  deriving DecidableEq

/-- The three external chains used by `process_resume`. -/
structure Oracles where
  keywords : String → Except PyErr ResumeKeywords
  categorize : List String → Except PyErr KeywordCategories
  scoring : ScoringInput → Except PyErr ResumeScore

/-- How many times each external chain was invoked during one call. -/
structure CallLog where
  keywordsCalls : Nat
  categorizeCalls : Nat
  scoringCalls : Nat
  deriving DecidableEq

/-- Model of `process_resume(job_description_prompt, resume_file_path, strictness_level)`:
keyword extraction, categorization, PDF text extraction (raising
`ValueError` on empty text), scoring, then the local aggregate-score
computation `technical*0.4 + softskills*0.3 + extracurricular*0.2 +
((client_need/3)*10)*0.1`, which overwrites the `aggregate_score` the
scoring chain returned.  Python float literals `0.4, 0.3, 0.2, 0.1` are
the exact rationals here. -/
def process_resume (o : Oracles) (job_description_prompt : String)
    (resume_pdf : PdfDoc) (strictness_level : String) :
    Except PyErr ResumeScore × CallLog :=
  match o.keywords job_description_prompt with
  | .error e => (.error e, ⟨1, 0, 0⟩)
  | .ok response_keywords =>
    match o.categorize response_keywords.keywords with
    | .error e => (.error e, ⟨1, 1, 0⟩)
    | .ok categorized_keywords =>
      let resume_text := extract_text_from_pdf resume_pdf
      if resume_text = "" then
        (.error (.valueError "Could not extract text from the provided resume PDF."),
         ⟨1, 1, 0⟩)
      else
        match o.scoring
            { resume_text := resume_text
              technical := categorized_keywords.technical
              soft_skills := categorized_keywords.soft_skills
              extracurricular := categorized_keywords.extracurricular
              client_need := categorized_keywords.recruiter_requirements
              strictness := strictness_level } with
        | .error e => (.error e, ⟨1, 1, 1⟩)
        | .ok resume_score =>
          let normalized_client_need_score : ℚ :=
            ((resume_score.client_need_score : ℚ) / 3) * 10
          (.ok { resume_score with
                  aggregate_score :=
                    (resume_score.technical_score : ℚ) * (4/10) +
                    (resume_score.softskills_score : ℚ) * (3/10) +
                    (resume_score.extracurricular_score : ℚ) * (2/10) +
                    normalized_client_need_score * (1/10) },
           ⟨1, 1, 1⟩)

/-! ## Flask handlers (`app.py`)

A request carries optional form fields and uploaded files; the uploads
directory is modelled as a `Finset String` of existing file paths, passed
through explicitly.  `werkzeug.utils.secure_filename` is an external
collaborator and is passed in as an abstract sanitizer function. -/

/-- An uploaded multipart file: its client-supplied filename and the PDF
content that ends up on disk after `resume_file.save(filepath)`. -/
structure UploadedFile where
  filename : String
  content : PdfDoc
  deriving DecidableEq

/-- Shape of a `/screen` request: `request.files['resume']`,
`request.form['job_description']`, `request.form.get('strictness', 'medium')`. -/
structure ScreenRequest where
  resume : Option UploadedFile
  job_description : Option String
  strictness : Option String

/-- Default handling `request.form.get('strictness', 'medium')`. -/
def strictnessOf (s : Option String) : String := s.getD "medium"

/-- Response of `/screen`: HTTP status plus either a serialized score or
an error payload. -/
inductive ScreenResponse where
  | score (status : Nat) (s : ResumeScore)
  | failure (status : Nat) (msg : String)
  deriving DecidableEq

/-- Path construction `os.path.join(app.config['UPLOAD_FOLDER'], filename)`. -/
def uploadPath (secure : String → String) (filename : String) : String :=
  "uploads/" ++ secure filename

/-- Handler `screen_resume` (`app.py:17-54`): guards, save, `process_resume`,
`finally` cleanup of the temporary file.  Returns the response and the
resulting uploads directory. -/
def screen_resume (secure : String → String) (o : Oracles)
    (req : ScreenRequest) (fs : Finset String) :
    ScreenResponse × Finset String :=
  match req.resume with
  | none => (.failure 400 "No resume file provided", fs)
  | some resume_file =>
    match req.job_description with
    | none => (.failure 400 "No job description provided", fs)
    | some job_description_prompt =>
      if resume_file.filename = "" then
        (.failure 400 "No selected file", fs)
      else
        let filepath := uploadPath secure resume_file.filename
        let fs1 := insert filepath fs
        let result := (process_resume o job_description_prompt
          resume_file.content (strictnessOf req.strictness)).1
        match result with
        | .ok r => (.score 200 r, fs1.erase filepath)
        | .error (.validation d) =>
          (.failure 500 ("Data validation error from LLM output: " ++ d),
           fs1.erase filepath)
        | .error e =>
          (.failure 500 ("An error occurred during resume screening: " ++ e.message),
           fs1.erase filepath)

/-- Shape of a `/batch_screen` request: `request.files.getlist('resumes[]')` is
`none` when the key is absent, `some files` otherwise. -/
structure BatchRequest where
  resumes : Option (List UploadedFile)
  job_description : Option String
  strictness : Option String

/-- One entry of the batch result list: `{filename, score}` or
`{filename, error, details?}`. -/
inductive BatchEntry where
  | score (filename : String) (s : ResumeScore)
  | failure (filename : String) (msg : String) (details : Option String)
  deriving DecidableEq

/-- The tagged filename of a batch entry. -/
def BatchEntry.taggedName : BatchEntry → String
  | .score fn _ => fn
  | .failure fn _ _ => fn

/-- Response of `/batch_screen`. -/
inductive BatchResponse where
  | results (status : Nat) (entries : List BatchEntry)
  | failure (status : Nat) (msg : String)
  deriving DecidableEq

/-- The try/except body for one batch file (`app.py:83-90`): a score entry
on success, an error entry (with validation details when applicable) on
failure. -/
def batchEntryFor (secure : String → String) (o : Oracles)
    (job_description_prompt strictness : String) (f : UploadedFile) :
    BatchEntry :=
  match (process_resume o job_description_prompt f.content strictness).1 with
  | .ok r => .score (secure f.filename) r
  | .error (.validation d) =>
    .failure (secure f.filename) "Data validation error from LLM output" (some d)
  | .error e =>
    .failure (secure f.filename) ("Error processing resume: " ++ e.message) none

/-- The `for resume_file in resume_files` loop (`app.py:76-93`): skip
empty filenames, save, process, append the entry, `finally` remove the
temporary file. -/
def batchLoop (secure : String → String) (o : Oracles)
    (job_description_prompt strictness : String) :
    List UploadedFile → List BatchEntry → Finset String →
    List BatchEntry × Finset String
  | [], results, fs => (results, fs)
  | resume_file :: rest, results, fs =>
    if resume_file.filename = "" then
      batchLoop secure o job_description_prompt strictness rest results fs
    else
      let filepath := uploadPath secure resume_file.filename
      let fs1 := insert filepath fs
      let entry := batchEntryFor secure o job_description_prompt strictness resume_file
      batchLoop secure o job_description_prompt strictness rest
        (results ++ [entry]) (fs1.erase filepath)

/-- Handler `batch_screen_resumes` (`app.py:56-95`). -/
def batch_screen_resumes (secure : String → String) (o : Oracles)
    (req : BatchRequest) (fs : Finset String) :
    BatchResponse × Finset String :=
  match req.resumes with
  | none => (.failure 400 "No resume files provided", fs)
  | some resume_files =>
    match req.job_description with
    | none => (.failure 400 "No job description provided", fs)
    | some job_description_prompt =>
      if resume_files = [] then
        (.failure 400 "No selected files", fs)
      else
        let (results, fs') := batchLoop secure o job_description_prompt
          (strictnessOf req.strictness) resume_files [] fs
        (.results 200 results, fs')

/-! ## Pydantic validation of `ResumeScore` (`resume_filter.py:26-37`)

The `ResumeScore` model declares `technical_score: int = Field(...,
description="Score from 0–10")` etc.  `Field` only attaches the
*description* (used as LLM guidance); Pydantic validates the declared
*types*.  The raw input (a parsed JSON dict) is modelled with `Json`
values per field; `aggregate_score` has default `0.0`. -/

inductive Json where
  | jint (i : Int)
  | jnum (q : ℚ)
  | jstr (s : String)
  | jnull
  deriving DecidableEq

/-- Pydantic coercion to `int`: integers, or floats with no fractional
part. -/
def asInt : Json → Except String Int
  | .jint i => .ok i
  | .jnum q => if q.den = 1 then .ok q.num else .error "not a valid integer"
  | _ => .error "not a valid integer"

/-- Pydantic coercion to `str`. -/
def asStr : Json → Except String String
  | .jstr s => .ok s
  | _ => .error "not a valid string"

/-- Pydantic coercion to `float`. -/
def asFloat : Json → Except String ℚ
  | .jnum q => .ok q
  | .jint i => .ok i
  | _ => .error "not a valid number"

/-- The raw JSON fields offered for validation against `ResumeScore`.
`aggregate_score := none` means the key is absent (default applies). -/
structure RawResumeScore where
  name : Json
  technical_score : Json
  technical_reason : Json
  softskills_score : Json
  softskills_reason : Json
  extracurricular_score : Json
  extracurricular_reason : Json
  client_need_score : Json
  client_need_reason : Json
  aggregate_score : Option Json
  deriving DecidableEq

/-- Pydantic validation of the `ResumeScore` model: each field must have
its declared type; the `Field(..., description=...)` annotations carry no
range constraint (`ge`/`le` are not used in the source). -/
def validateResumeScore (raw : RawResumeScore) : Except String ResumeScore := do
  let name ← asStr raw.name
  let technical ← asInt raw.technical_score
  let technical_r ← asStr raw.technical_reason
  let softskills ← asInt raw.softskills_score
  let softskills_r ← asStr raw.softskills_reason
  let extra ← asInt raw.extracurricular_score
  let extra_r ← asStr raw.extracurricular_reason
  let client ← asInt raw.client_need_score
  let client_r ← asStr raw.client_need_reason
  let agg ← match raw.aggregate_score with
    | none => pure (0 : ℚ)
    | some j => asFloat j
  pure ⟨name, technical, technical_r, softskills, softskills_r,
        extra, extra_r, client, client_r, agg⟩

/-! ## Specification-side definition for the extractor claim -/

/-- Modelled from the spec (§4.1): "the concatenation of per-page
extracted text in page order; pages contributing no extractable text
contribute an empty string". -/
def specConcatPages : List (Option String) → String
  | [] => ""
  | p :: ps => p.getD "" ++ specConcatPages ps

/-- The set of temporary file paths `/screen` saves for a request (one
path when all guards pass, none otherwise). -/
def screenSavedPaths (secure : String → String) (req : ScreenRequest) :
    Finset String :=
  match req.resume, req.job_description with
  | some f, some _ =>
    if f.filename = "" then ∅ else {uploadPath secure f.filename}
  | _, _ => ∅

/-- The set of temporary file paths `/batch_screen` saves for a request
(one per non-empty-named uploaded file when the guards pass). -/
def batchSavedPaths (secure : String → String) (req : BatchRequest) :
    Finset String :=
  match req.resumes, req.job_description with
  | some files, some _ =>
    ((files.filter (fun f => f.filename ≠ "")).map
      (fun f => uploadPath secure f.filename)).toFinset
  | _, _ => ∅

/-! ## C8: score bounds at validation -/

/-- A raw score payload whose integer fields all lie outside the
described 0–10 / 0–3 ranges. -/
def rawOutOfRange : RawResumeScore :=
  ⟨.jstr "Out Of Range", .jint 11, .jstr "t", .jint 12, .jstr "s",
   .jint 99, .jstr "e", .jint 7, .jstr "c", none⟩

/-! ## Concrete inputs for the claim witnesses -/

/-- A concrete oracle triple: each chain answers successfully; the
scoring chain reports `aggregate_score = 99`, which the pipeline must
overwrite. -/
def oracleGood : Oracles where
  keywords := fun _ => .ok ⟨["sql"]⟩
  categorize := fun _ => .ok ⟨["sql"], ["teamwork"], ["debate"], ["relocation"]⟩
  scoring := fun _ =>
    .ok ⟨"Jane Doe", 8, "strong", 7, "good", 5, "some", 2, "fits", 99⟩

/-- A PDF that decodes to one page of text. -/
def pdfGood : PdfDoc := .ok [some "Jane Doe, 5 years Python"]

/-- A PDF whose decoding raises. -/
def pdfCorrupt : PdfDoc := .error "decode error"

/-- The score `process_resume` yields from `oracleGood` and `pdfGood`:
the oracle's sub-scores with the locally computed aggregate
`8*0.4 + 7*0.3 + 5*0.2 + ((2/3)*10)*0.1 = 209/30`. -/
def scoreGood : ResumeScore :=
  ⟨"Jane Doe", 8, "strong", 7, "good", 5, "some", 2, "fits", 209/30⟩

/-- Concrete candidate records, including an equal-score pair
(alice/carol) and a record lacking the `aggregate_score` key (dan). -/
def candsW : List Candidate :=
  [⟨"alice", some 5⟩, ⟨"bob", some (15/2)⟩, ⟨"carol", some 5⟩, ⟨"dan", none⟩]

/-- A recommendation chain that always returns a single entry,
regardless of the requested count. -/
def chainOne : List Candidate → Int → RecommendationList :=
  fun _ _ => ⟨[⟨"alice", "top candidate"⟩]⟩

/-- An identity sanitizer standing in for `secure_filename`. -/
def secureW : String → String := fun s => s

def fileGood : UploadedFile := ⟨"jane.pdf", pdfGood⟩

def fileNoName : UploadedFile := ⟨"", pdfGood⟩

def fileBad : UploadedFile := ⟨"bad.pdf", pdfCorrupt⟩

def filesW : List UploadedFile := [fileGood, fileNoName, fileBad]

def screenReqW : ScreenRequest := ⟨some fileGood, some "jd", none⟩

/-! ## Sort lemmas -/

theorem insertDesc_perm (c : Candidate) (l : List Candidate) :
    (insertDesc c l).Perm (c :: l) := by
  induction l with
  | nil => simp [insertDesc]
  | cons x xs ih =>
    by_cases h : aggKey x ≤ aggKey c
    · simp [insertDesc, h]
    · simp only [insertDesc, if_neg h]
      exact (List.Perm.cons x ih).trans (List.Perm.swap c x xs)

theorem sortByAggDesc_perm (l : List Candidate) :
    (sortByAggDesc l).Perm l := by
  induction l with
  | nil => simp [sortByAggDesc]
  | cons c cs ih =>
    exact (insertDesc_perm c (sortByAggDesc cs)).trans (List.Perm.cons c ih)

theorem mem_insertDesc {y c : Candidate} {l : List Candidate}
    (h : y ∈ insertDesc c l) : y = c ∨ y ∈ l := by
  have := (insertDesc_perm c l).mem_iff.mp h
  simpa using this

theorem insertDesc_pairwise (c : Candidate) {l : List Candidate}
    (hl : l.Pairwise (fun a b => aggKey b ≤ aggKey a)) :
    (insertDesc c l).Pairwise (fun a b => aggKey b ≤ aggKey a) := by
  induction l with
  | nil => simp [insertDesc]
  | cons x xs ih =>
    rcases List.pairwise_cons.mp hl with ⟨hx, hxs⟩
    by_cases h : aggKey x ≤ aggKey c
    · simp only [insertDesc, if_pos h]
      refine List.pairwise_cons.mpr ⟨?_, hl⟩
      intro b hb
      rcases List.mem_cons.mp hb with rfl | hb
      · exact h
      · exact le_trans (hx b hb) h
    · simp only [insertDesc, if_neg h]
      refine List.pairwise_cons.mpr ⟨?_, ih hxs⟩
      intro b hb
      rcases mem_insertDesc hb with rfl | hb
      · exact le_of_lt (lt_of_not_le h)
      · exact hx b hb

theorem sortByAggDesc_pairwise (l : List Candidate) :
    (sortByAggDesc l).Pairwise (fun a b => aggKey b ≤ aggKey a) := by
  induction l with
  | nil => simp [sortByAggDesc]
  | cons c cs ih => exact insertDesc_pairwise c ih

/-- Stability of the insertion step, expressed through filtering at a
fixed key value: the newly inserted element lands in front of every
equal-key element already placed (it only ever passes elements with a
strictly greater key). -/
theorem insertDesc_filter (c : Candidate) (l : List Candidate) (v : ℚ) :
    (insertDesc c l).filter (fun y => decide (aggKey y = v)) =
      if aggKey c = v then c :: l.filter (fun y => decide (aggKey y = v))
      else l.filter (fun y => decide (aggKey y = v)) := by
  induction l with
  | nil =>
    by_cases hc : aggKey c = v <;> simp [insertDesc, hc]
  | cons x xs ih =>
    by_cases h : aggKey x ≤ aggKey c
    · simp only [insertDesc, if_pos h]
      by_cases hc : aggKey c = v <;>
        by_cases hx : aggKey x = v <;>
          simp [hc, hx, List.filter_cons]
    · have hlt : aggKey c < aggKey x := lt_of_not_le h
      simp only [insertDesc, if_neg h]
      by_cases hc : aggKey c = v
      · have hx : ¬ aggKey x = v := by
          intro hxv
          rw [hc, hxv] at hlt
          exact lt_irrefl v hlt
        simp [hc, hx, List.filter_cons, ih]
      · by_cases hx : aggKey x = v <;>
          simp [hc, hx, List.filter_cons, ih]

/-- Stability of the full sort: for each key value, the equal-key
candidates appear in the output in exactly their input order. -/
theorem sortByAggDesc_filter (l : List Candidate) (v : ℚ) :
    (sortByAggDesc l).filter (fun y => decide (aggKey y = v)) =
      l.filter (fun y => decide (aggKey y = v)) := by
  induction l with
  | nil => simp [sortByAggDesc]
  | cons c cs ih =>
    by_cases hc : aggKey c = v <;>
      simp [sortByAggDesc, insertDesc_filter, hc, List.filter_cons, ih]

/-! ## Supporting lemmas for the extractor -/

theorem foldl_append_pages (l : List (Option String)) (init : String) :
    l.foldl (fun text page => text ++ page.getD "") init =
      init ++ specConcatPages l := by
  induction l generalizing init with
  | nil => simp [specConcatPages]
  | cons p ps ih =>
    simp only [List.foldl_cons, specConcatPages, ih]
    rw [String.append_assoc]

theorem specConcatPages_append (l₁ l₂ : List (Option String)) :
    specConcatPages (l₁ ++ l₂) = specConcatPages l₁ ++ specConcatPages l₂ := by
  induction l₁ with
  | nil => simp [specConcatPages, String.empty_append]
  | cons p ps ih =>
    show p.getD "" ++ specConcatPages (ps ++ l₂) =
      (p.getD "" ++ specConcatPages ps) ++ specConcatPages l₂
    rw [ih, String.append_assoc]


/-! ## Claim theorems -/

/-- C5: `extract_text_from_pdf` returns the concatenation, in page order,
of the per-page extracted text, with a page yielding no extractable text
(`extract_text()` returning `None`) contributing `""`; such a bad page
never discards the other pages' text; and if the document fails to
decode, the function returns `""` instead of propagating the exception. -/
theorem extract_text_from_pdf_spec :
    (∀ pages : List (Option String),
      extract_text_from_pdf (.ok pages) = specConcatPages pages) ∧
    (∀ pre post : List (Option String),
      extract_text_from_pdf (.ok (pre ++ none :: post)) =
        extract_text_from_pdf (.ok (pre ++ post))) ∧
    (∀ err : String, extract_text_from_pdf (.error err) = "") := by
  have hok : ∀ pages : List (Option String),
      extract_text_from_pdf (.ok pages) = specConcatPages pages := by
    intro pages
    show pages.foldl (fun text page => text ++ page.getD "") "" = _
    rw [foldl_append_pages, String.empty_append]
  refine ⟨hok, ?_, fun _ => rfl⟩
  intro pre post
  rw [hok, hok, specConcatPages_append, specConcatPages_append]
  show specConcatPages pre ++ ("" ++ specConcatPages post) = _
  rw [String.empty_append]

/-- C1: whenever `process_resume` succeeds, the returned record's
`aggregate_score` equals `technical*0.4 + softskills*0.3 +
extracurricular*0.2 + ((client_need/3)*10)*0.1` over its own sub-scores —
the value is computed locally after the scoring call for every possible
oracle, so any aggregate value the external call supplied is
overwritten. -/
theorem process_resume_aggregate (o : Oracles) (jd : String) (pdf : PdfDoc)
    (strict : String) (r : ResumeScore) (log : CallLog)
    (h : process_resume o jd pdf strict = (.ok r, log)) :
    r.aggregate_score =
      (r.technical_score : ℚ) * (4/10) + (r.softskills_score : ℚ) * (3/10) +
      (r.extracurricular_score : ℚ) * (2/10) +
      (((r.client_need_score : ℚ) / 3) * 10) * (1/10) := by
  cases hk : o.keywords jd with
  | error e => simp [process_resume, hk] at h
  | ok kw =>
    cases hc : o.categorize kw.keywords with
    | error e => simp [process_resume, hk, hc] at h
    | ok cat =>
      by_cases ht : extract_text_from_pdf pdf = ""
      · simp [process_resume, hk, hc, ht] at h
      · cases hs : o.scoring
            { resume_text := extract_text_from_pdf pdf
              technical := cat.technical
              soft_skills := cat.soft_skills
              extracurricular := cat.extracurricular
              client_need := cat.recruiter_requirements
              strictness := strict } with
        | error e => simp [process_resume, hk, hc, ht, hs] at h
        | ok rs =>
          simp only [process_resume, hk, hc, if_neg ht, hs,
            Prod.mk.injEq, Except.ok.injEq] at h
          obtain ⟨h1, h2⟩ := h
          subst h1
          rfl

/-- C6: when the extracted resume text is empty, `process_resume` raises
`ValueError("Could not extract text from the provided resume PDF.")` —
it never returns a `ResumeScore` and never invokes the external scoring
chain. -/
theorem process_resume_empty_text (o : Oracles) (jd : String) (pdf : PdfDoc)
    (strict : String) (h : extract_text_from_pdf pdf = "") :
    (∀ r : ResumeScore, (process_resume o jd pdf strict).1 ≠ .ok r) ∧
    (process_resume o jd pdf strict).2.scoringCalls = 0 := by
  cases hk : o.keywords jd with
  | error e => simp [process_resume, hk]
  | ok kw =>
    cases hc : o.categorize kw.keywords with
    | error e => simp [process_resume, hk, hc]
    | ok cat => simp [process_resume, hk, hc, h]

/-- C2: `get_recommendations` on an empty candidate list returns the
empty `RecommendationList` and invokes the external recommendation chain
zero times, for every requested count. -/
theorem get_recommendations_empty
    (chain : List Candidate → Int → RecommendationList) (n : Int) :
    get_recommendations chain [] n = (⟨[]⟩, 0) := rfl

/-- C3: on a non-empty candidate list, `get_recommendations` passes the
external chain exactly `sortByAggDesc` of its input, which is a
permutation of the input, is sorted by `aggregate_score` descending, and
is stable: for every key value the equal-key candidates appear in their
original relative order. -/
theorem get_recommendations_sorted_stable (cands : List Candidate)
    (hne : cands ≠ []) :
    (∀ (chain : List Candidate → Int → RecommendationList) (n : Int),
      get_recommendations chain cands n = (chain (sortByAggDesc cands) n, 1)) ∧
    (sortByAggDesc cands).Perm cands ∧
    (sortByAggDesc cands).Pairwise (fun a b => aggKey b ≤ aggKey a) ∧
    (∀ v : ℚ, (sortByAggDesc cands).filter (fun y => decide (aggKey y = v)) =
      cands.filter (fun y => decide (aggKey y = v))) := by
  refine ⟨?_, sortByAggDesc_perm cands, sortByAggDesc_pairwise cands,
    fun v => sortByAggDesc_filter cands v⟩
  intro chain n
  simp [get_recommendations, hne]

/-- C4: on a non-empty candidate list, `get_recommendations` returns
exactly the `RecommendationList` produced by the external chain — it is
not truncated to the requested count, padded, or turned into an error,
whatever its length. -/
theorem get_recommendations_returns_chain_output
    (chain : List Candidate → Int → RecommendationList)
    (cands : List Candidate) (n : Int) (hne : cands ≠ []) :
    (get_recommendations chain cands n).1 = chain (sortByAggDesc cands) n ∧
    (get_recommendations chain cands n).1.recommendations.length =
      (chain (sortByAggDesc cands) n).recommendations.length := by
  have h : (get_recommendations chain cands n).1 =
      chain (sortByAggDesc cands) n := by
    simp [get_recommendations, hne]
  exact ⟨h, by rw [h]⟩

/-- C10: the sort key of `get_recommendations` is
`x.get('aggregate_score', 0)`, so a candidate record lacking the key
sorts (totally, without raising) with key `0`: in the sorted list no
key-less record precedes... rather, every record appearing after a
key-less record has a non-positive score, i.e. key-less records come
after all records with positive `aggregate_score`; the record is kept
(permutation), not dropped. -/
theorem sort_missing_aggregate_key (cands : List Candidate) :
    (∀ c : Candidate, c.aggregate_score = none → aggKey c = 0) ∧
    (sortByAggDesc cands).Perm cands ∧
    (sortByAggDesc cands).Pairwise (fun a b =>
      a.aggregate_score = none → ∀ v : ℚ, b.aggregate_score = some v → v ≤ 0) := by
  refine ⟨fun c hc => by simp [aggKey, hc], sortByAggDesc_perm cands, ?_⟩
  refine (sortByAggDesc_pairwise cands).imp ?_
  intro a b hle ha v hb
  simp only [aggKey, ha, hb, Option.getD_none, Option.getD_some] at hle
  exact hle


/-! ## Supporting lemmas for the handlers -/

theorem batchLoop_results (secure : String → String) (o : Oracles)
    (jd strict : String) (files : List UploadedFile)
    (acc : List BatchEntry) (fs : Finset String) :
    (batchLoop secure o jd strict files acc fs).1 =
      acc ++ (files.filter (fun f => f.filename ≠ "")).map
        (batchEntryFor secure o jd strict) := by
  induction files generalizing acc fs with
  | nil => simp [batchLoop]
  | cons f rest ih =>
    by_cases h : f.filename = ""
    · simp [batchLoop, h, ih]
    · simp [batchLoop, h, ih]

theorem batchLoop_fs (secure : String → String) (o : Oracles)
    (jd strict : String) (files : List UploadedFile)
    (acc : List BatchEntry) (fs : Finset String) :
    (batchLoop secure o jd strict files acc fs).2 =
      fs \ ((files.filter (fun f => f.filename ≠ "")).map
        (fun f => uploadPath secure f.filename)).toFinset := by
  induction files generalizing acc fs with
  | nil => simp [batchLoop]
  | cons f rest ih =>
    by_cases h : f.filename = ""
    · simp [batchLoop, h, ih]
    · have hstep : batchLoop secure o jd strict (f :: rest) acc fs =
        batchLoop secure o jd strict rest
          (acc ++ [batchEntryFor secure o jd strict f])
          ((insert (uploadPath secure f.filename) fs).erase
            (uploadPath secure f.filename)) := by
        simp [batchLoop, h]
      rw [hstep, ih, Finset.erase_insert_eq_erase]
      have hfil : (f :: rest).filter (fun f => f.filename ≠ "") =
          f :: rest.filter (fun f => f.filename ≠ "") := by
        simp [List.filter_cons, h]
      rw [hfil, List.map_cons, List.toFinset_cons]
      ext a
      simp only [Finset.mem_sdiff, Finset.mem_erase, Finset.mem_insert,
        List.mem_toFinset]
      tauto


/-! ## Claim theorems for the handlers -/

/-- C7: for a `/batch_screen` request with `job_description` present and
a non-empty file list, the handler responds 200 with exactly one entry
per non-empty-named file, in submission order; entry `i` is computed from
file `i` alone (a score entry on success, an error entry on failure, so
one file's failure never suppresses the others' entries), is tagged with
the (sanitized) originating filename, and the entry count is
`K − E` for `K` submitted files of which `E` have an empty filename. -/
theorem batch_screen_entries (secure : String → String) (o : Oracles)
    (files : List UploadedFile) (jd : String) (strict : Option String)
    (fs : Finset String) (hne : files ≠ []) :
    (batch_screen_resumes secure o ⟨some files, some jd, strict⟩ fs).1 =
      .results 200 ((files.filter (fun f => f.filename ≠ "")).map
        (batchEntryFor secure o jd (strictnessOf strict))) ∧
    ((files.filter (fun f => f.filename ≠ "")).map
        (batchEntryFor secure o jd (strictnessOf strict))).length =
      files.length - (files.filter (fun f => f.filename = "")).length ∧
    (∀ f ∈ files.filter (fun f => f.filename ≠ ""),
      (batchEntryFor secure o jd (strictnessOf strict) f).taggedName =
        secure f.filename) := by
  refine ⟨?_, ?_, ?_⟩
  · simp only [batch_screen_resumes, if_neg hne]
    rw [show (batchLoop secure o jd (strictnessOf strict) files [] fs).1 =
      (files.filter (fun f => f.filename ≠ "")).map
        (batchEntryFor secure o jd (strictnessOf strict)) from by
      rw [batchLoop_results]; simp]
  · rw [List.length_map]
    have h := List.length_eq_length_filter_add
      (l := files) (fun f => decide (f.filename = ""))
    have hcompl : files.filter (fun f => f.filename ≠ "") =
        files.filter (fun f => !(decide (f.filename = ""))) := by
      congr 1
      funext f
      simp [decide_not]
    rw [hcompl]
    omega
  · intro f _
    unfold batchEntryFor
    cases (process_resume o jd f.content (strictnessOf strict)).1 with
    | ok r => rfl
    | error e => cases e <;> rfl

/-- C9: on every exit path of `/screen` and `/batch_screen` — guard
rejections, successful processing, and raised exceptions alike — the
temporary files saved for the request are removed before the response is
produced: the resulting uploads directory is the initial one minus the
saved paths, so it never grows and retains no saved upload. -/
theorem handlers_cleanup_tempfiles :
    (∀ (secure : String → String) (o : Oracles) (req : ScreenRequest)
        (fs : Finset String),
      (screen_resume secure o req fs).2 = fs \ screenSavedPaths secure req ∧
      (screen_resume secure o req fs).2 ⊆ fs ∧
      ∀ p ∈ screenSavedPaths secure req, p ∉ (screen_resume secure o req fs).2) ∧
    (∀ (secure : String → String) (o : Oracles) (req : BatchRequest)
        (fs : Finset String),
      (batch_screen_resumes secure o req fs).2 = fs \ batchSavedPaths secure req ∧
      (batch_screen_resumes secure o req fs).2 ⊆ fs ∧
      ∀ p ∈ batchSavedPaths secure req,
        p ∉ (batch_screen_resumes secure o req fs).2) := by
  have screen_eq : ∀ (secure : String → String) (o : Oracles)
      (req : ScreenRequest) (fs : Finset String),
      (screen_resume secure o req fs).2 = fs \ screenSavedPaths secure req := by
    intro secure o req fs
    rcases req with ⟨resume, jd, strict⟩
    cases resume with
    | none => simp [screen_resume, screenSavedPaths]
    | some f =>
      cases jd with
      | none => simp [screen_resume, screenSavedPaths]
      | some j =>
        by_cases hf : f.filename = ""
        · simp [screen_resume, screenSavedPaths, hf]
        · simp only [screen_resume, screenSavedPaths, if_neg hf]
          cases hp : (process_resume o j f.content (strictnessOf strict)).1 with
          | ok r =>
            simp only []
            rw [Finset.erase_insert_eq_erase, Finset.sdiff_singleton_eq_erase]
          | error e =>
            cases e <;>
              simp only [] <;>
              rw [Finset.erase_insert_eq_erase, Finset.sdiff_singleton_eq_erase]
  have batch_eq : ∀ (secure : String → String) (o : Oracles)
      (req : BatchRequest) (fs : Finset String),
      (batch_screen_resumes secure o req fs).2 =
        fs \ batchSavedPaths secure req := by
    intro secure o req fs
    rcases req with ⟨resumes, jd, strict⟩
    cases resumes with
    | none => simp [batch_screen_resumes, batchSavedPaths]
    | some files =>
      cases jd with
      | none => simp [batch_screen_resumes, batchSavedPaths]
      | some j =>
        by_cases hf : files = []
        · simp [batch_screen_resumes, batchSavedPaths, hf]
        · simp only [batch_screen_resumes, if_neg hf, batchSavedPaths]
          rw [batchLoop_fs]
  constructor
  · intro secure o req fs
    refine ⟨screen_eq secure o req fs, ?_, ?_⟩
    · rw [screen_eq]; exact Finset.sdiff_subset
    · intro p hp
      rw [screen_eq]
      simp [Finset.mem_sdiff, hp]
  · intro secure o req fs
    refine ⟨batch_eq secure o req fs, ?_, ?_⟩
    · rw [batch_eq]; exact Finset.sdiff_subset
    · intro p hp
      rw [batch_eq]
      simp [Finset.mem_sdiff, hp]

/-! ## Claim theorems for validation bounds -/

/-- C8 counterexample: validation of `ResumeScore` accepts
`technical_score = 11`, `softskills_score = 12`,
`extracurricular_score = 99` and `client_need_score = 7`, so it is not
the case that every validated score lies within 0–10 / 0–3 — the bounds
live only in the `Field` descriptions and are not enforced. -/
theorem resumeScore_bounds_not_enforced :
    ¬ (∀ (raw : RawResumeScore) (r : ResumeScore),
        validateResumeScore raw = .ok r →
          0 ≤ r.technical_score ∧ r.technical_score ≤ 10 ∧
          0 ≤ r.softskills_score ∧ r.softskills_score ≤ 10 ∧
          0 ≤ r.extracurricular_score ∧ r.extracurricular_score ≤ 10 ∧
          0 ≤ r.client_need_score ∧ r.client_need_score ≤ 3) := by
  intro hcl
  have h := hcl rawOutOfRange
    ⟨"Out Of Range", 11, "t", 12, "s", 99, "e", 7, "c", 0⟩ rfl
  exact absurd h.2.1 (by decide)

/-- C8 amended: `ResumeScore` validation enforces the declared field
*types* only — any integers whatsoever are accepted for the four score
fields (the 0–10 and 0–3 bounds are description text, not constraints),
while a non-integer score value is rejected. -/
theorem resumeScore_schema_types_only :
    (∀ (n tr sr er cr : String) (t s e c : Int),
      validateResumeScore
        ⟨.jstr n, .jint t, .jstr tr, .jint s, .jstr sr, .jint e, .jstr er,
         .jint c, .jstr cr, none⟩ =
        .ok ⟨n, t, tr, s, sr, e, er, c, cr, 0⟩) ∧
    (∀ (n x : String) (raw : RawResumeScore),
      raw.name = .jstr n → raw.technical_score = .jstr x →
        ∀ r : ResumeScore, validateResumeScore raw ≠ .ok r) := by
  constructor
  · intro n tr sr er cr t s e c
    rfl
  · intro n x raw h1 h2 r h
    simp [validateResumeScore, h1, h2, asStr, asInt, Bind.bind, Except.bind] at h

/-- C8 amended-claim witness: a concrete out-of-range payload is
accepted with its values untouched. -/
theorem resumeScore_schema_types_only_witness :
    validateResumeScore
      ⟨.jstr "A", .jint 42, .jstr "t", .jint (-5), .jstr "s", .jint 11,
       .jstr "e", .jint 100, .jstr "c", none⟩ =
      .ok ⟨"A", 42, "t", -5, "s", 11, "e", 100, "c", 0⟩ :=
  resumeScore_schema_types_only.1 "A" "t" "s" "e" "c" 42 (-5) 11 100

/-! ## Witnesses -/

/-- C1 witness: a full concrete run; the external call's `99` is
replaced by `209/30`, which satisfies the weighted formula. -/
theorem process_resume_aggregate_witness :
    scoreGood.aggregate_score =
      (scoreGood.technical_score : ℚ) * (4/10) +
      (scoreGood.softskills_score : ℚ) * (3/10) +
      (scoreGood.extracurricular_score : ℚ) * (2/10) +
      (((scoreGood.client_need_score : ℚ) / 3) * 10) * (1/10) :=
  process_resume_aggregate oracleGood "jd" pdfGood "medium" scoreGood
    ⟨1, 1, 1⟩ (by
      have h : ((8:ℤ):ℚ) * (4/10) + ((7:ℤ):ℚ) * (3/10) + ((5:ℤ):ℚ) * (2/10) +
          (((2:ℤ):ℚ)/3) * 10 * (1/10) = 209/30 := by norm_num
      show (Except.ok
          { name := "Jane Doe", technical_score := 8, technical_reason := "strong",
            softskills_score := 7, softskills_reason := "good",
            extracurricular_score := 5, extracurricular_reason := "some",
            client_need_score := 2, client_need_reason := "fits",
            aggregate_score :=
              ((8:ℤ):ℚ) * (4/10) + ((7:ℤ):ℚ) * (3/10) + ((5:ℤ):ℚ) * (2/10) +
                (((2:ℤ):ℚ)/3) * 10 * (1/10) },
          (⟨1, 1, 1⟩ : CallLog)) = (Except.ok scoreGood, ⟨1, 1, 1⟩)
      rw [h]
      rfl)

/-- C6 witness: an undecodable PDF extracts to `""`, so `process_resume`
errors without invoking the scoring chain. -/
theorem process_resume_empty_text_witness :
    (∀ r : ResumeScore,
      (process_resume oracleGood "jd" pdfCorrupt "medium").1 ≠ .ok r) ∧
    (process_resume oracleGood "jd" pdfCorrupt "medium").2.scoringCalls = 0 :=
  process_resume_empty_text oracleGood "jd" pdfCorrupt "medium" rfl

/-- C3 witness: the concrete candidate list is non-empty; its sort is a
stable descending permutation handed to the chain. -/
theorem get_recommendations_sorted_stable_witness :
    candsW ≠ [] ∧
    ((∀ (chain : List Candidate → Int → RecommendationList) (n : Int),
      get_recommendations chain candsW n = (chain (sortByAggDesc candsW) n, 1)) ∧
    (sortByAggDesc candsW).Perm candsW ∧
    (sortByAggDesc candsW).Pairwise (fun a b => aggKey b ≤ aggKey a) ∧
    (∀ v : ℚ, (sortByAggDesc candsW).filter (fun y => decide (aggKey y = v)) =
      candsW.filter (fun y => decide (aggKey y = v)))) :=
  ⟨by decide, get_recommendations_sorted_stable candsW (by decide)⟩

/-- C4 witness: with a chain that returns one recommendation for a
requested count of five, the handler passes that single-entry list
through unmodified. -/
theorem get_recommendations_returns_chain_output_witness :
    (get_recommendations chainOne candsW 5).1 = chainOne (sortByAggDesc candsW) 5 ∧
    (get_recommendations chainOne candsW 5).1.recommendations.length =
      (chainOne (sortByAggDesc candsW) 5).recommendations.length :=
  get_recommendations_returns_chain_output chainOne candsW 5 (by decide)

/-- C10 witness: a record without the `aggregate_score` key has sort
key `0`. -/
theorem sort_missing_aggregate_key_witness :
    aggKey ⟨"dan", none⟩ = 0 :=
  (sort_missing_aggregate_key []).1 ⟨"dan", none⟩ rfl

/-- C7 witness: three submitted files — one scored, one empty-named
(skipped), one failing — yield exactly two entries. -/
theorem batch_screen_entries_witness :
    (batch_screen_resumes secureW oracleGood ⟨some filesW, some "jd", none⟩ ∅).1 =
      .results 200 ((filesW.filter (fun f => f.filename ≠ "")).map
        (batchEntryFor secureW oracleGood "jd" (strictnessOf none))) ∧
    ((filesW.filter (fun f => f.filename ≠ "")).map
        (batchEntryFor secureW oracleGood "jd" (strictnessOf none))).length =
      filesW.length - (filesW.filter (fun f => f.filename = "")).length ∧
    (∀ f ∈ filesW.filter (fun f => f.filename ≠ ""),
      (batchEntryFor secureW oracleGood "jd" (strictnessOf none) f).taggedName =
        secureW f.filename) :=
  batch_screen_entries secureW oracleGood filesW "jd" none ∅ (by decide)

/-- C9 witness: a concrete `/screen` request against a directory holding
an unrelated file leaves exactly that file. -/
theorem handlers_cleanup_tempfiles_witness :
    (screen_resume secureW oracleGood screenReqW
        ({"uploads/old.pdf"} : Finset String)).2 =
      ({"uploads/old.pdf"} : Finset String) \
        screenSavedPaths secureW screenReqW :=
  (handlers_cleanup_tempfiles.1 secureW oracleGood screenReqW
    {"uploads/old.pdf"}).1

end ResumeFiltering
